import Mathlib

/-!
Verification of the mpc-tss-lib protocol core against its specification.

Go `*big.Int` values are modelled as `Nat` (all values handled by the code
under study are non-negative), byte strings as `List Nat` with each entry a
byte value.  Hash primitives (Poseidon, SHA-512/256) and elliptic-curve
group operations are modelled as explicit functional parameters ("oracles"):
the code under study calls them through interfaces, and the properties
checked here are about how the code composes them, never about the
primitives themselves.
-/

namespace MpcTss

/-- Little-endian byte expansion with explicit fuel so that the definition is
structurally recursive (hence kernel-reducible).  `natToBytesAux fuel n` is
the minimal little-endian byte list of `n` provided `n ≤ fuel`. -/
def natToBytesAux : Nat → Nat → List Nat
  | 0, _ => []
  | fuel + 1, n => if n = 0 then [] else n % 256 :: natToBytesAux fuel (n / 256)

/-- Minimal little-endian byte list of a natural number. -/
def natToBytesLE (n : Nat) : List Nat :=
  natToBytesAux n n

/-- Mirrors Go `big.Int.Bytes()`: the minimal big-endian byte encoding
(empty for zero). -/
def natToBytes (n : Nat) : List Nat :=
  (natToBytesLE n).reverse

/-- Mirrors Go `big.Int.SetBytes` on a big-endian byte list. -/
def bytesToNat (bs : List Nat) : Nat :=
  bs.foldl (fun acc b => acc * 256 + b) 0

/-- Mirrors `big.Int.FillBytes(make([]byte, w))` / `bigIntToFixedBytes(n, w)`:
the big-endian encoding left-padded with zeros to exactly `w` bytes. -/
def natToFixedBytes (w n : Nat) : List Nat :=
  List.replicate (w - (natToBytes n).length) 0 ++ natToBytes n

/-- Mirrors `bigIntToEncodedBytes`: the 32-byte little-endian encoding used
for ed25519 scalars (little-endian bytes right-padded with zeros). -/
def natToFixedBytesLE (w n : Nat) : List Nat :=
  natToBytesLE n ++ List.replicate (w - (natToBytesLE n).length) 0

/-- The BN254 scalar-field prime, the native field of the Poseidon hash
used throughout the repository (`p_F` in the specification). -/
def pF : Nat :=
  21888242871839275222246405745257275088548364400416034343698204186575808495617

/-- The byte literal of the `fieldModulus` variable defined in
`src/eddsa/signing/rounds.go` (lines 106-111) and, with identical bytes, in
`src/ecdsa/signing/rounds.go` (lines 132-136). -/
def fieldModulusBytes : List Nat :=
  [0x24, 0x03, 0x4b, 0x62, 0xb0, 0x00, 0x00, 0x00,
   0x18, 0x00, 0x00, 0x00, 0xa8, 0x00, 0x00, 0x00,
   0x01, 0xd8, 0x00, 0x00, 0x00, 0x4f, 0x00, 0x00,
   0x00, 0x3b, 0x00, 0x00, 0x00, 0x01]

/-- `var fieldModulus = new(big.Int).SetBytes([]byte{...})` from the signing
rounds files. -/
def fieldModulus : Nat :=
  bytesToNat fieldModulusBytes

/-- The ed25519 group order `L = 2^252 + 27742…`, the modulus hard-wired
into `edwards25519.ScMulAdd` which the finalization uses to accumulate
signature shares. -/
def edL : Nat :=
  2 ^ 252 + 27742317777372353535851937790883648493

/-- Coordinates of a `crypto.ECPoint` (`src/unnamed/part_000`, lines 240-243);
the curve handle is irrelevant to `Equals` and is omitted here. -/
structure ECPoint where
  x : Nat
  y : Nat
  deriving DecidableEq

/-- `ECPoint.Equals` (`src/unnamed/part_000`, lines 320-325).  Go nil
pointers are modelled by `Option`: `none` is a nil receiver or argument. -/
def Equals (p p2 : Option ECPoint) : Bool :=
  match p, p2 with
  | none, _ => false
  | _, none => false
  | some a, some b => a.x == b.x && a.y == b.y

/-- `base.WaitingFor` (`src/eddsa/signing/rounds.go`, lines 81-91; the same
body appears in `src/unnamed/part_004`, lines 76-86 and
`src/ecdsa/signing/rounds.go`, lines 106-116): walk the `ok` vector in index
order and collect `Ps[j]` for every `j` with `ok[j] = false`.  The Go loop
indexes the party list by the position in `ok`; the simultaneous walk below
is the functional rendition of that loop. -/
def WaitingFor {α : Type} : List α → List Bool → List α
  | _, [] => []
  | [], _ :: _ => []
  | p :: Ps, b :: ok => if b then WaitingFor Ps ok else p :: WaitingFor Ps ok

/-- A curve implementation as consulted by `ECPoint.UnmarshalJSON`: only the
on-curve membership test matters to deserialization. -/
structure CurveM where
  onCurve : Nat → Nat → Bool

/-- `tss.GetCurveByName`: resolve a curve name through the curve registry,
here an association list. -/
def GetCurveByName (registry : List (String × CurveM)) (name : String) : Option CurveM :=
  List.lookup name registry

/-- Error outcomes of `ECPoint.UnmarshalJSON`. -/
inductive UnmarshalErr where
  | curveNotRegistered
  | notOnCurve
  deriving DecidableEq

/-- An `ECPoint` together with the curve resolved while loading it. -/
structure LoadedPoint where
  curve : CurveM
  x : Nat
  y : Nat

/-- `ECPoint.UnmarshalJSON` (`src/unnamed/part_000`, lines 496-522) after
JSON field extraction: if the payload names a curve (non-empty string) it
must resolve through the registry, otherwise the global default curve
`tss.EC()` is used; the resulting point must pass the on-curve check. -/
def unmarshalJSONECPoint (registry : List (String × CurveM)) (globalEC : CurveM)
    (curveName : String) (X Y : Nat) : Except UnmarshalErr LoadedPoint :=
  if 0 < curveName.length then
    match GetCurveByName registry curveName with
    | none => .error .curveNotRegistered
    | some ec =>
      if ec.onCurve X Y then .ok ⟨ec, X, Y⟩ else .error .notOnCurve
  else
    if globalEC.onCurve X Y then .ok ⟨globalEC, X, Y⟩ else .error .notOnCurve

/-- The `DeCommitment` field built by `NewSignRound2Message`
(`src/unnamed/part_001`, lines 52-76): each decommitment component `dc` is
replaced by `poseidon.HashBytes(dc.Bytes()).Bytes()` before being placed on
the wire.  `posB` is the Poseidon byte-hash oracle. -/
def newSignRound2MessageDeCommitment (posB : List Nat → Nat) (deCommitment : List Nat) :
    List (List Nat) :=
  deCommitment.map (fun dc => natToBytes (posB (natToBytes dc)))

/-- `SignRound2Message.UnmarshalDeCommitment` (`src/unnamed/part_001`, lines
88-91).  Modelled from the spec: the helper it calls,
`cmt.NewHashDeCommitmentFromBytes`, is not under `src/`; per the spec's wire
model it decodes each received byte string back into a scalar
(`big.Int.SetBytes`). -/
def UnmarshalDeCommitment (deComBzs : List (List Nat)) : List Nat :=
  deComBzs.map bytesToNat

/-- The round-1 signing commitment (`src/eddsa/signing/round_1.go`, lines
49-71): given the coordinates of `R_i = r_i · G`, the code sets
`C = poseidon.HashBytes(xBytes ++ yBytes)` and `D = [X, Y]`, with no random
blinding value.  Returns the pair `(cmt.C, cmt.D)`; `cmt.D` is also what is
stored in `round.temp.deCommit`. -/
def round1Commitment (posB : List Nat → Nat) (X Y : Nat) : Nat × List Nat :=
  (posB (natToBytes X ++ natToBytes Y), [X, Y])

/-- Modelled from the spec: `commit(values) → (C, D)` picks
`r ← U([0, 2^256))`, sets `D = [r] ++ values` and `C = H(D)` (spec §4.3),
hashing the byte encodings of the entries of `D`.  The randomness `r` is
passed explicitly. -/
def specCommit (H : List Nat → Nat) (r : Nat) (values : List Nat) : Nat × List Nat :=
  (H (((r :: values).map natToBytes).flatten), r :: values)

/-- The `ssidList` assembled by the EdDSA signing `base.getSSID`
(`src/eddsa/signing/rounds.go`, lines 114-128): curve parameters
`P, N, Gx, Gy` (no `B`), then the party keys, the flattened `BigXj`
points, the round number and the ssid nonce. -/
def eddsaSigningSSIDList (P N Gx Gy : Nat) (keys bigXjFlat : List Nat)
    (number nonce : Nat) : List Nat :=
  [P, N, Gx, Gy] ++ keys ++ bigXjFlat ++ [number] ++ [nonce]

/-- The `ssidList` assembled by the keygen `base.getSSID`
(`src/unnamed/part_004`, lines 136-144): curve parameters `P, N, Gx, Gy`
(no `B`), the party keys, the round number and the ssid nonce; keygen has
no `BigXj` available. -/
def keygenSSIDList (P N Gx Gy : Nat) (keys : List Nat) (number nonce : Nat) : List Nat :=
  [P, N, Gx, Gy] ++ keys ++ [number] ++ [nonce]

/-- Modelled from the spec (§4.7): the SSID input tuple
`(P, N, B, Gx, Gy, party_keys…, BigXj…[if available], round_number,
ssid_nonce)`. -/
def specSSIDList (P N B Gx Gy : Nat) (keys bigXjFlat : List Nat)
    (number nonce : Nat) : List Nat :=
  [P, N, B, Gx, Gy] ++ keys ++ bigXjFlat ++ [number] ++ [nonce]

/-- The input-validation loop of the signing `getSSID` functions
(`src/eddsa/signing/rounds.go`, lines 131-138, and
`src/ecdsa/signing/rounds.go`, lines 155-163): every input is reduced
modulo the hardcoded `fieldModulus` before Poseidon absorption.  (The Go
branch re-adding `fieldModulus` on a negative remainder is dead code:
`big.Int.Mod` with a positive modulus never returns a negative value.) -/
def ssidValidatedInputs (ssidList : List Nat) : List Nat :=
  ssidList.map (fun item => item % fieldModulus)

/-- The EdDSA signing `base.getSSID` (`src/eddsa/signing/rounds.go`, lines
114-147): Poseidon over the `fieldModulus`-reduced `ssidList`, returned as
bytes.  `posH` is the Poseidon field-hash oracle. -/
def eddsaSigningGetSSID (posH : List Nat → Nat) (P N Gx Gy : Nat)
    (keys bigXjFlat : List Nat) (number nonce : Nat) : List Nat :=
  natToBytes (posH (ssidValidatedInputs
    (eddsaSigningSSIDList P N Gx Gy keys bigXjFlat number nonce)))

/-- The keygen `base.getSSID` (`src/unnamed/part_004`, lines 136-144):
SHA-512/256 over the unreduced `ssidList`, returned as bytes.  `sha` is the
`common.SHA512_256i` oracle. -/
def keygenGetSSID (sha : List Nat → Nat) (P N Gx Gy : Nat) (keys : List Nat)
    (number nonce : Nat) : List Nat :=
  natToBytes (sha (keygenSSIDList P N Gx Gy keys number nonce))

/-- The accumulation of signature shares in `finalization.Start`
(`src/unnamed/part_001`, lines 162-174): starting from the local `s_i`, each
peer's `s_j` is folded in with `edwards25519.ScMulAdd(tmp, sumS, 1, s_j)`,
which reduces modulo the ed25519 order `L` at every step. -/
def sumShares (si : Nat) (otherSj : List Nat) : Nat :=
  otherSj.foldl (fun acc sj => (acc + sj) % edL) si

/-- The message bytes recomputed by `finalization.Start`
(`src/unnamed/part_001`, lines 181-189): the minimal big-endian bytes of
`m`, unless a full byte length was supplied, in which case `m` is
left-padded to that length. -/
def finalMBytes (m fullBytesLen : Nat) : List Nat :=
  if fullBytesLen = 0 then natToBytes m else natToFixedBytes fullBytesLen m

/-- The challenge computed by `finalization.Start` (`src/unnamed/part_001`,
lines 199-216): `h = Poseidon(fixed32BE(r) || pkX.Bytes() || pkY.Bytes()
|| MBytes) mod N`. -/
def finalizationChallenge (posB : List Nat → Nat) (N r pkX pkY : Nat)
    (MBytes : List Nat) : Nat :=
  posB (natToFixedBytes 32 r ++ (natToBytes pkX ++ natToBytes pkY) ++ MBytes) % N

/-- Modelled from the spec (§4.9): the EdDSA-specified challenge
`k = H_sig(encode(R) || encode(Y) || m) mod N` with `H_sig` the hash fixed
by the standard (SHA-512 for ed25519); `sha512` is that oracle. -/
def specChallengeSHA512 (sha512 : List Nat → Nat) (N : Nat)
    (encR encY m : List Nat) : Nat :=
  sha512 (encR ++ encY ++ m) % N

/-- Error outcomes of `finalization.Start`. -/
inductive FinalizationErr where
  | alreadyStarted
  | parseRFailed
  | verifyFailed
  deriving DecidableEq

/-- The `common.SignatureData` fields filled by `finalization.Start`. -/
structure SigData where
  signature : List Nat
  bigR : List Nat
  s : List Nat
  m : List Nat
  deriving DecidableEq

/-- `finalization.Start` of EdDSA signing (`src/unnamed/part_001`, lines
154-241).  Oracles: `posB` is `poseidon.HashBytes`; `parsePub` is
`edwards.ParsePubKey` (decompression of a 32-byte encoding into affine
coordinates, `none` on failure); `scalarBaseMult`, `scalarMult` and
`addPoint` are the curve operations.  An `.ok` result models delivery of
the signature data on the `end` channel; every `.error` result models
`round.WrapError(...)` with nothing delivered.  (The variant in
`src/eddsa/signing/finalize.go` differs only in delegating the final check
to `edwards.Verify` over a Poseidon-hashed message; its delivery structure
is identical.) -/
def finalizationStart (posB : List Nat → Nat)
    (parsePub : List Nat → Option (Nat × Nat))
    (scalarBaseMult : Nat → Nat × Nat)
    (scalarMult : Nat × Nat → Nat → Nat × Nat)
    (addPoint : Nat × Nat → Nat × Nat → Nat × Nat)
    (N : Nat) (started : Bool) (si : Nat) (otherSj : List Nat)
    (r m fullBytesLen pkX pkY : Nat) : Except FinalizationErr SigData :=
  if started then .error .alreadyStarted else
  let s := sumShares si otherSj
  let signature := natToFixedBytesLE 32 r ++ natToFixedBytesLE 32 s
  let MBytes := finalMBytes m fullBytesLen
  let RBytes := natToFixedBytes 32 r
  let h := finalizationChallenge posB N r pkX pkY MBytes
  match parsePub RBytes with
  | none => .error .parseRFailed
  | some RPoint =>
    let sB := scalarBaseMult s
    let hA := scalarMult (pkX, pkY) h
    let RplusHA := addPoint RPoint hA
    if RplusHA = sB then
      .ok ⟨signature, natToBytes r, natToBytes s, MBytes⟩
    else
      .error .verifyFailed

/-- Subtraction modulo `N` (Go `modN.Sub`). -/
def modSub (N a b : Nat) : Nat :=
  (a + (N - b % N)) % N

/-- Modular inverse (Go `big.Int.ModInverse`): the least `b < N` with
`a * b ≡ 1 (mod N)`, and `0` when no inverse exists.  Modelled by its
defining property; the Go routine computes the same value by the extended
Euclidean algorithm. -/
def modInv (N a : Nat) : Nat :=
  ((List.range N).find? (fun b => a * b % N == 1)).getD 0

/-- Modelled from the spec (§4.5): the Lagrange coefficient at `0` of the
share with id `idi` within the share set, `λ_i = Π_{j ≠ i} (−id_j) ·
(id_i − id_j)^{-1} mod N`.  A share is a pair `(id, value)`. -/
def lagrangeCoeff (N : Nat) (shares : List (Nat × Nat)) (idi : Nat) : Nat :=
  shares.foldl
    (fun acc sj =>
      if sj.1 = idi then acc
      else acc * (((N - sj.1 % N) % N) * modInv N (modSub N idi sj.1) % N) % N)
    1

/-- Modelled from the spec (§4.5): `Σ λ_i · share_i mod N`, the value a
reconstruction returns once the share-count check has passed. -/
def reconstructSum (N : Nat) (shares : List (Nat × Nat)) : Nat :=
  shares.foldl (fun acc si => (acc + lagrangeCoeff N shares si.1 * si.2) % N) 0

/-- Error outcome of `Shares.ReConstruct`. -/
inductive VssErr where
  | insufficientShares
  deriving DecidableEq

/-- Modelled from the spec (§4.5): `Reconstruct(shares S, threshold t)`
requires `|S| ≥ t+1` and pairwise-distinct ids, failing with
`InsufficientShares` otherwise, and returns `Σ λ_i · share_i mod N`. -/
def specReConstruct (N t : Nat) (shares : List (Nat × Nat)) : Except VssErr Nat :=
  if shares.length < t + 1 ∨ ¬ (shares.map Prod.fst).Nodup then .error .insufficientShares
  else .ok (reconstructSum N shares)

/-- The `Shares.ReConstruct` behaviour pinned by its test `TestReconstruct`
(`src/unnamed/part_000`, lines 145-168): the body of `ReConstruct` is not
under `src/`, but the test asserts an error for `threshold - 1` shares and
success (a non-nil value) for exactly `threshold` shares, so the
implementation rejects only when `|S| < t`. -/
def reConstructPinned (N t : Nat) (shares : List (Nat × Nat)) : Except VssErr Nat :=
  if shares.length < t then .error .insufficientShares
  else .ok (reconstructSum N shares)

/-- Decidable equality for `Except` results, used to evaluate protocol
outcomes on concrete inputs. -/
instance exceptDecEq {ε α : Type} [DecidableEq ε] [DecidableEq α] :
    DecidableEq (Except ε α) := fun x y =>
  match x, y with
  | .error a, .error b => decidable_of_iff (a = b) (by simp)
  | .error _, .ok _ => .isFalse (by simp)
  | .ok _, .error _ => .isFalse (by simp)
  | .ok a, .ok b => decidable_of_iff (a = b) (by simp)

theorem bytesToNat_append_single (xs : List Nat) (b : Nat) :
    bytesToNat (xs ++ [b]) = bytesToNat xs * 256 + b := by
  simp [bytesToNat, List.foldl_append]

theorem bytesToNat_natToBytesAux (fuel : Nat) :
    ∀ n, n ≤ fuel → bytesToNat (natToBytesAux fuel n).reverse = n := by
  induction fuel with
  | zero =>
    intro n hn
    have h0 : n = 0 := Nat.le_zero.mp hn
    subst h0
    simp [natToBytesAux, bytesToNat]
  | succ fuel ih =>
    intro n hn
    by_cases h0 : n = 0
    · subst h0
      simp [natToBytesAux, bytesToNat]
    · have hdiv : n / 256 < n := Nat.div_lt_self (Nat.pos_of_ne_zero h0) (by norm_num)
      rw [natToBytesAux]
      simp only [h0, if_false]
      rw [List.reverse_cons, bytesToNat_append_single, ih (n / 256) (by omega)]
      have := Nat.div_add_mod n 256
      omega

theorem bytesToNat_natToBytes (n : Nat) : bytesToNat (natToBytes n) = n := by
  simpa [natToBytes, natToBytesLE] using bytesToNat_natToBytesAux n n (Nat.le_refl n)

/-- C2 counterexample: it is not the case that, for every Poseidon oracle
(even restricted to oracles whose outputs lie in the BN254 field, as the
real one's do) and every decommitment list, `UnmarshalDeCommitment`
recovers the original list from the round-2 message: the component
`dc = pF` is never recovered, since the field on the wire holds a hash of
`dc` rather than `dc` itself. -/
theorem signRound2_decommitment_no_roundtrip :
    ¬ (∀ posB : List Nat → Nat, (∀ bs, posB bs < pF) →
        ∀ deCommitment : List Nat,
          UnmarshalDeCommitment (newSignRound2MessageDeCommitment posB deCommitment) =
            deCommitment) := by
  intro hclaim
  have h := hclaim (fun _ => 0) (fun bs => by show (0 : Nat) < pF; decide) [pF]
  simp only [newSignRound2MessageDeCommitment, UnmarshalDeCommitment, List.map_map,
    List.map_cons, List.map_nil, Function.comp, bytesToNat_natToBytes, List.cons.injEq] at h
  exact absurd h.1 (by decide)

/-- C2 as amended: the round-2 broadcast carries the per-component Poseidon
hashes of the decommitment, so `UnmarshalDeCommitment` applied to the
received message returns the componentwise Poseidon image of `D_i` (each
component `dc` replaced by the hash of its byte encoding), not `D_i`
itself. -/
theorem signRound2_decommitment_maps_poseidon (posB : List Nat → Nat)
    (deCommitment : List Nat) :
    UnmarshalDeCommitment (newSignRound2MessageDeCommitment posB deCommitment) =
      deCommitment.map (fun dc => posB (natToBytes dc)) := by
  simp [newSignRound2MessageDeCommitment, UnmarshalDeCommitment, List.map_map,
    Function.comp, bytesToNat_natToBytes]

/-- C3 counterexample: the round-1 signing commitment to the point
`R_i = (5, 7)` stores the decommitment `[5, 7]`, which does not begin with
any random blinding value prepended to the committed values. -/
theorem round1Commitment_no_blinding_prefix :
    ¬ ∃ r : Nat, (round1Commitment (fun _ => 0) 5 7).2 = r :: [5, 7] := by
  rintro ⟨r, h⟩
  simp [round1Commitment] at h

/-- C3 as amended: the round-1 signing commitment is an unblinded Poseidon
hash commitment: `D = [X, Y]` exactly (no random prefix) and
`C = Poseidon(bytes(X) ++ bytes(Y))`, the hash of the concatenated byte
encodings of `D`. -/
theorem round1Commitment_unblinded_hash (posB : List Nat → Nat) (X Y : Nat) :
    (round1Commitment posB X Y).2 = [X, Y] ∧
    (round1Commitment posB X Y).1 = posB (([X, Y].map natToBytes).flatten) := by
  exact ⟨rfl, by simp [round1Commitment]⟩

/-- C4: with `threshold t = 3` over the field of order 11 and the sharing
polynomial `p(x) = 1 + 2x + 3x² + 4x³` (secret `1`, shares at ids
`1..4`), the reconstruction behaviour pinned by `TestReconstruct` accepts
exactly `t = 3` shares and returns `3`, which is not the secret, whereas
the spec's `Reconstruct` rejects `t` shares with `InsufficientShares`
and recovers the secret `1` from `t + 1 = 4` shares. -/
theorem reconstruct_threshold_off_by_one :
    reConstructPinned 11 3 [(1, 10), (2, 5), (3, 10)] = .ok 3 ∧
    specReConstruct 11 3 [(1, 10), (2, 5), (3, 10)] = .error .insufficientShares ∧
    specReConstruct 11 3 [(1, 10), (2, 5), (3, 10), (4, 5)] = .ok 1 ∧
    (3 : Nat) ≠ 1 := by
  refine ⟨by decide, by decide, by decide, by decide⟩

/-- C5 counterexample: the input-reduction step of the signing `getSSID`
does not reduce modulo the BN254 scalar prime `p_F`: on the input list
`[fieldModulus]` it yields `[0]`, while reduction mod `p_F` leaves
`fieldModulus` unchanged (the "unused" constant is precisely the modulus
the code uses). -/
theorem ssidValidatedInputs_not_mod_pF :
    ¬ (∀ ssidList : List Nat,
        ssidValidatedInputs ssidList = ssidList.map (fun item => item % pF)) := by
  intro hclaim
  have h := hclaim [fieldModulus]
  simp only [ssidValidatedInputs, List.map_cons, List.map_nil, List.cons.injEq] at h
  exact absurd h.1 (by decide)

/-- C5 as amended: the `fieldModulus` constant is used by the signing
`getSSID` functions: every input absorbed into the Poseidon SSID hash is
first reduced modulo `fieldModulus`, a constant distinct from (and smaller
than) the BN254 scalar prime `p_F`. -/
theorem ssid_inputs_reduced_mod_fieldModulus :
    (∀ (posH : List Nat → Nat) (P N Gx Gy : Nat) (keys bigXjFlat : List Nat)
        (number nonce : Nat),
      eddsaSigningGetSSID posH P N Gx Gy keys bigXjFlat number nonce =
        natToBytes (posH ((eddsaSigningSSIDList P N Gx Gy keys bigXjFlat number nonce).map
          (fun item => item % fieldModulus)))) ∧
    (∀ (ssidList : List Nat) (item : Nat),
      item ∈ ssidValidatedInputs ssidList → item < fieldModulus) ∧
    fieldModulus ≠ pF ∧ fieldModulus < pF := by
  refine ⟨fun _ _ _ _ _ _ _ _ _ => rfl, ?_, by decide, by decide⟩
  intro ssidList item hmem
  simp only [ssidValidatedInputs, List.mem_map] at hmem
  obtain ⟨x, -, rfl⟩ := hmem
  exact Nat.mod_lt _ (by decide)

/-- C5 witness: the reduction bound of `ssid_inputs_reduced_mod_fieldModulus`
applied at the concrete input list `[5]`, whose image under the code's
reduction contains `5`. -/
theorem ssid_inputs_reduced_mod_fieldModulus_witness :
    (5 : Nat) ∈ ssidValidatedInputs [5] ∧ (5 : Nat) < fieldModulus :=
  ⟨by decide, ssid_inputs_reduced_mod_fieldModulus.2.1 [5] 5 (by decide)⟩

/-- C6 counterexample: at the curve parameters `P = 2, N = 3, B = 5,
Gx = 7, Gy = 11` (no party keys, no `BigXj`, round `1`, nonce `0`) neither
the EdDSA signing `ssidList` nor the keygen `ssidList` equals the tuple
beginning `(P, N, B, Gx, Gy)` demanded by the claim: both omit `B`. -/
theorem eddsa_ssidList_differs_from_spec :
    eddsaSigningSSIDList 2 3 7 11 [] [] 1 0 ≠ specSSIDList 2 3 5 7 11 [] [] 1 0 ∧
    keygenSSIDList 2 3 7 11 [] 1 0 ≠ specSSIDList 2 3 5 7 11 [] [] 1 0 := by
  refine ⟨by decide, by decide⟩

/-- C6 as amended: the SSID input tuple of the EdDSA keygen and signing
rounds begins `(P, N, Gx, Gy)` — it is the spec's ordered tuple with the
curve coefficient `B` (position 2) removed — followed by the party keys,
the flattened `BigXj` when available (signing only), the round number and
the ssid nonce. -/
theorem eddsa_ssidList_omits_B (P N B Gx Gy : Nat) (keys bigXjFlat : List Nat)
    (number nonce : Nat) :
    eddsaSigningSSIDList P N Gx Gy keys bigXjFlat number nonce =
      (specSSIDList P N B Gx Gy keys bigXjFlat number nonce).eraseIdx 2 ∧
    keygenSSIDList P N Gx Gy keys number nonce =
      (specSSIDList P N B Gx Gy keys [] number nonce).eraseIdx 2 := by
  refine ⟨?_, ?_⟩ <;>
    simp [eddsaSigningSSIDList, keygenSSIDList, specSSIDList, List.eraseIdx]

/-- C10: `ECPoint.Equals` returns `false` whenever the receiver or the
argument is a nil pointer, and on two non-nil points returns `true`
exactly when both coordinate pairs agree. -/
theorem equals_nil_false_and_coords (p q : Option ECPoint) (a b : ECPoint) :
    Equals none q = false ∧ Equals p none = false ∧
    (Equals (some a) (some b) = true ↔ a.x = b.x ∧ a.y = b.y) := by
  refine ⟨?_, ?_, ?_⟩
  · cases q <;> rfl
  · cases p <;> rfl
  · simp [Equals]

/-- C1 counterexample: the finalization challenge is not computed with the
EdDSA-specified SHA-512 oracle: even granting the spec side the code's own
operand encodings, there are oracle assignments (Poseidon and SHA-512
disagreeing on the hashed bytes) under which the code's challenge differs
from the SHA-512 challenge, because the code consults only the Poseidon
oracle. -/
theorem finalizationChallenge_ignores_sha512 :
    ¬ (∀ (posB sha512 : List Nat → Nat) (N r pkX pkY : Nat) (M : List Nat),
        finalizationChallenge posB N r pkX pkY M =
          specChallengeSHA512 sha512 N (natToFixedBytes 32 r)
            (natToBytes pkX ++ natToBytes pkY) M) := by
  intro hclaim
  have h := hclaim (fun _ => 0) (fun _ => 1) 3 0 0 0 []
  exact absurd h (by decide)

/-- C1 as amended: after a successful finalization the delivered 64-byte
signature `LE32(r) || LE32(s)` has passed the in-code self-check
`s · G == R + h · A` where `h` is the Poseidon-based challenge
`Poseidon(fixed32(R) || pkX || pkY || M) mod N`, not a SHA-512 challenge;
no standard ed25519 verifier is invoked. -/
theorem finalization_poseidon_selfcheck
    (posB : List Nat → Nat) (parsePub : List Nat → Option (Nat × Nat))
    (scalarBaseMult : Nat → Nat × Nat) (scalarMult : Nat × Nat → Nat → Nat × Nat)
    (addPoint : Nat × Nat → Nat × Nat → Nat × Nat)
    (N si : Nat) (otherSj : List Nat) (r m fullBytesLen pkX pkY : Nat)
    (RPoint : Nat × Nat) (d : SigData)
    (hparse : parsePub (natToFixedBytes 32 r) = some RPoint)
    (hok : finalizationStart posB parsePub scalarBaseMult scalarMult addPoint N false si
        otherSj r m fullBytesLen pkX pkY = .ok d) :
    addPoint RPoint (scalarMult (pkX, pkY)
        (finalizationChallenge posB N r pkX pkY (finalMBytes m fullBytesLen))) =
      scalarBaseMult (sumShares si otherSj) ∧
    d.signature = natToFixedBytesLE 32 r ++ natToFixedBytesLE 32 (sumShares si otherSj) := by
  by_cases hcond : addPoint RPoint (scalarMult (pkX, pkY)
      (finalizationChallenge posB N r pkX pkY (finalMBytes m fullBytesLen))) =
      scalarBaseMult (sumShares si otherSj)
  · refine ⟨hcond, ?_⟩
    simp only [finalizationStart, Bool.false_eq_true, if_false, hparse, hcond, if_true,
      Except.ok.injEq] at hok
    rw [← hok]
  · exfalso
    simp [finalizationStart, hparse, hcond] at hok

/-- C1 witness: a concrete successful finalization instance for
`finalization_poseidon_selfcheck`, with its hypotheses discharged by
evaluation. -/
theorem finalization_poseidon_selfcheck_witness :
    (⟨List.replicate 32 0 ++ List.replicate 32 0, [], [], []⟩ : SigData).signature =
      natToFixedBytesLE 32 0 ++ natToFixedBytesLE 32 (sumShares 0 []) :=
  (finalization_poseidon_selfcheck (fun _ => 0) (fun _ => some (1, 1)) (fun _ => (7, 7))
    (fun _ _ => (2, 2)) (fun _ _ => (7, 7)) 5 0 [] 0 0 0 0 0 (1, 1)
    ⟨List.replicate 32 0 ++ List.replicate 32 0, [], [], []⟩ rfl (by decide)).2

/-- C7: given that the round was not already started and the stored `R`
parses back into a point, `finalization.Start` delivers the signature data
on the end channel exactly when the self-verification equation
`s · G == R + h · A` holds; on failure it returns an error and delivers
nothing. -/
theorem finalization_delivers_iff_selfverify
    (posB : List Nat → Nat) (parsePub : List Nat → Option (Nat × Nat))
    (scalarBaseMult : Nat → Nat × Nat) (scalarMult : Nat × Nat → Nat → Nat × Nat)
    (addPoint : Nat × Nat → Nat × Nat → Nat × Nat)
    (N si : Nat) (otherSj : List Nat) (r m fullBytesLen pkX pkY : Nat)
    (RPoint : Nat × Nat)
    (hparse : parsePub (natToFixedBytes 32 r) = some RPoint) :
    (∃ d, finalizationStart posB parsePub scalarBaseMult scalarMult addPoint N false si
        otherSj r m fullBytesLen pkX pkY = .ok d) ↔
      addPoint RPoint (scalarMult (pkX, pkY)
          (finalizationChallenge posB N r pkX pkY (finalMBytes m fullBytesLen))) =
        scalarBaseMult (sumShares si otherSj) := by
  constructor
  · rintro ⟨d, hd⟩
    by_contra hcond
    simp [finalizationStart, hparse, hcond] at hd
  · intro hcond
    exact ⟨⟨natToFixedBytesLE 32 r ++ natToFixedBytesLE 32 (sumShares si otherSj),
      natToBytes r, natToBytes (sumShares si otherSj), finalMBytes m fullBytesLen⟩,
      by simp [finalizationStart, hparse, hcond]⟩

/-- C7 witness: a concrete instance of
`finalization_delivers_iff_selfverify` in which the self-check equation
holds, so a signature is delivered. -/
theorem finalization_delivers_iff_selfverify_witness :
    ∃ d, finalizationStart (fun _ => 0) (fun _ => some (1, 1)) (fun _ => (7, 7))
      (fun _ _ => (2, 2)) (fun _ _ => (7, 7)) 5 false 0 [] 0 0 0 0 0 = .ok d :=
  (finalization_delivers_iff_selfverify (fun _ => 0) (fun _ => some (1, 1)) (fun _ => (7, 7))
    (fun _ _ => (2, 2)) (fun _ _ => (7, 7)) 5 0 [] 0 0 0 0 0 (1, 1) rfl).mpr rfl

/-- C8: a JSON payload naming a curve (non-empty name) that does not
resolve through the curve registry makes `ECPoint.UnmarshalJSON` fail with
the registration error and construct no point, and any successfully loaded
point carries a curve resolved through the registry. -/
theorem unmarshalJSON_requires_registered_curve
    (registry : List (String × CurveM)) (globalEC : CurveM)
    (curveName : String) (X Y : Nat) :
    (0 < curveName.length → GetCurveByName registry curveName = none →
      unmarshalJSONECPoint registry globalEC curveName X Y = .error .curveNotRegistered) ∧
    (∀ pt, unmarshalJSONECPoint registry globalEC curveName X Y = .ok pt →
      0 < curveName.length →
      ∃ ec, GetCurveByName registry curveName = some ec ∧ pt.curve = ec) := by
  constructor
  · intro hlen hnone
    simp [unmarshalJSONECPoint, hlen, hnone]
  · intro pt hok hlen
    rcases hcase : GetCurveByName registry curveName with _ | ec
    · simp [unmarshalJSONECPoint, hlen, hcase] at hok
    · refine ⟨ec, rfl, ?_⟩
      by_cases honc : ec.onCurve X Y = true
      · simp only [unmarshalJSONECPoint, hlen, if_true, hcase, honc,
          Except.ok.injEq] at hok
        rw [← hok]
      · simp [unmarshalJSONECPoint, hlen, hcase, honc] at hok

/-- C8 witness: loading a payload naming `ed25519` against an empty
registry fails with the registration error. -/
theorem unmarshalJSON_requires_registered_curve_witness :
    unmarshalJSONECPoint [] ⟨fun _ _ => true⟩ "ed25519" 1 2 =
      .error .curveNotRegistered :=
  (unmarshalJSON_requires_registered_curve [] ⟨fun _ _ => true⟩ "ed25519" 1 2).1
    (by decide) rfl

/-- C9: `WaitingFor` returns exactly the parties whose index `j` has
`ok[j] = false`, in ascending party-index order and no others: it equals
the index-ordered filter of the party list by the negated `ok` vector. -/
theorem waitingFor_indices_not_ok {α : Type} (Ps : List α) (ok : List Bool)
    (h : ok.length = Ps.length) :
    WaitingFor Ps ok =
      ((List.range Ps.length).filter (fun j => !ok.getD j true)).filterMap
        (fun j => Ps.get? j) := by
  induction Ps generalizing ok with
  | nil =>
    have h0 : ok = [] := List.eq_nil_of_length_eq_zero (by simpa using h)
    subst h0
    rfl
  | cons p Ps ih =>
    cases ok with
    | nil => exact absurd h (by simp)
    | cons b ok =>
      have hlen : ok.length = Ps.length := by simpa using h
      have hget : ((fun j => (p :: Ps).get? j) ∘ Nat.succ) = fun j => Ps.get? j :=
        funext fun j => rfl
      have hfilt : ∀ c : Bool, ((fun j => !(c :: ok).getD j true) ∘ Nat.succ) =
          fun j => !ok.getD j true := fun c => funext fun j => rfl
      rw [List.length_cons, List.range_succ_eq_map]
      cases b with
      | false =>
        simp only [WaitingFor, Bool.false_eq_true, if_false, List.filter_cons,
          List.getD_cons_zero, Bool.not_false, if_true, List.filterMap_cons,
          List.get?_cons_zero, List.filter_map, List.filterMap_map]
        rw [hget, hfilt, ih ok hlen]
      | true =>
        simp only [WaitingFor, if_true, List.filter_cons, List.getD_cons_zero,
          Bool.not_true, Bool.false_eq_true, if_false, List.filter_map,
          List.filterMap_map]
        rw [hget, hfilt, ih ok hlen]

/-- C9 witness: parties `[10, 20, 30]` with `ok = [true, false, false]`
are reported as waiting for the parties at indices `1` and `2`, in index
order. -/
theorem waitingFor_indices_not_ok_witness :
    WaitingFor ([10, 20, 30] : List Nat) [true, false, false] =
      ((List.range ([10, 20, 30] : List Nat).length).filter
          (fun j => !([true, false, false].getD j true))).filterMap
        (fun j => ([10, 20, 30] : List Nat).get? j) :=
  waitingFor_indices_not_ok [10, 20, 30] [true, false, false] (by decide)

end MpcTss
